import Mathlib

/-!
Shallow embedding of the SpecDiff source-code unit extraction engine
(crossspec/code_extract: scanner.py, c_cpp_extractor.py, python_extractor.py),
with theorems settling the frozen specification claims.

Python `str` values are modelled as Lean `String`; machine integers are `Nat`
(`Int` where Python values may go negative); fallible operations return
`Option`/`Except`.  Function names keep the source's names with the leading
underscore dropped where present.
-/

namespace SpecDiff

/-! ## Character class helpers (ASCII fragment of Python's predicates) -/

def quoteChar : Char := Char.ofNat 34

def squoteChar : Char := Char.ofNat 39

def bsChar : Char := Char.ofNat 92

def lbraceChar : Char := Char.ofNat 123

def rbraceChar : Char := Char.ofNat 125

def lparenChar : Char := Char.ofNat 40

/-- Line-break characters recognised by Python `str.splitlines`. -/
def isPyLineBreak (c : Char) : Bool :=
  c = Char.ofNat 10 || c = Char.ofNat 13 || c = Char.ofNat 11 || c = Char.ofNat 12 ||
  c = Char.ofNat 28 || c = Char.ofNat 29 || c = Char.ofNat 30 ||
  c = Char.ofNat 133 || c = Char.ofNat 8232 || c = Char.ofNat 8233

/-- Whitespace characters for Python `str.strip` / `str.split` (ASCII and the
common unicode members; source lines never contain the exotic ones since
`splitlines` already split on them). -/
def isPyWs (c : Char) : Bool :=
  c = ' ' || c = Char.ofNat 9 || c = Char.ofNat 10 || c = Char.ofNat 11 ||
  c = Char.ofNat 12 || c = Char.ofNat 13 || c = Char.ofNat 28 || c = Char.ofNat 29 ||
  c = Char.ofNat 30 || c = Char.ofNat 31 || c = Char.ofNat 133 || c = Char.ofNat 160

/-- Characters matched by the regex class `\s`. -/
def isReSpace (c : Char) : Bool :=
  c = ' ' || c = Char.ofNat 9 || c = Char.ofNat 10 || c = Char.ofNat 11 ||
  c = Char.ofNat 12 || c = Char.ofNat 13

/-- Regex word characters (`\w` over ASCII), used for `\b` boundaries. -/
def isWordChar (c : Char) : Bool := c.isAlphanum || c = '_'

/-- Regex class `[A-Za-z_]`. -/
def isIdentStartChar (c : Char) : Bool := c.isAlpha || c = '_'

/-- Regex class `[A-Za-z0-9_]` (identifier continuation in class detection). -/
def isClassIdentChar (c : Char) : Bool := c.isAlphanum || c = '_'

/-- Regex class `[A-Za-z0-9_:~]` (identifier continuation in function-name
extraction). -/
def isFnIdentChar (c : Char) : Bool := c.isAlphanum || c = '_' || c = ':' || c = '~'

/-! ## Python string primitives used by the extractors -/

/-- Python `str.splitlines`, accumulator form (`\r\n` counts as one break). -/
def pySplitlinesAux : List Char → List Char → List String
  | [], acc => if acc.isEmpty then [] else [String.mk acc.reverse]
  | [c], acc =>
    if isPyLineBreak c then [String.mk acc.reverse]
    else [String.mk (c :: acc).reverse]
  | c :: c2 :: rest, acc =>
    if c = Char.ofNat 13 && c2 = Char.ofNat 10 then
      String.mk acc.reverse :: pySplitlinesAux rest []
    else if isPyLineBreak c then
      String.mk acc.reverse :: pySplitlinesAux (c2 :: rest) []
    else pySplitlinesAux (c2 :: rest) (c :: acc)

/-- Python `text.splitlines()`. -/
def pySplitlines (text : String) : List String := pySplitlinesAux text.toList []

/-- Python `str.lstrip()` (no argument). -/
def pyLstrip (sv : String) : String := String.mk (sv.toList.dropWhile isPyWs)

/-- Python `not line.strip()`: the line consists only of whitespace. -/
def pyIsBlank (sv : String) : Bool := sv.toList.all isPyWs

/-- Python `str.split()` with no argument: whitespace-run splitting with empty
fields discarded. -/
def pySplitWsAux : List Char → List Char → List String
  | [], acc => if acc.isEmpty then [] else [String.mk acc.reverse]
  | c :: rest, acc =>
    if isPyWs c then
      if acc.isEmpty then pySplitWsAux rest []
      else String.mk acc.reverse :: pySplitWsAux rest []
    else pySplitWsAux rest (c :: acc)

def pySplitWs (sv : String) : List String := pySplitWsAux sv.toList []

/-- First index at which `needle` occurs as a contiguous sublist of `hay`
(Python `str.find`; `none` plays the role of -1 and is downstream-equivalent
to column 0, since both make the `col < start_col` skip vacuous). -/
def strFindSub (hay needle : List Char) : Option Nat :=
  match hay with
  | [] => if needle.isEmpty then some 0 else none
  | _ :: rest =>
    if needle.isPrefixOf hay then some 0
    else (strFindSub rest needle).map (· + 1)

/-- Split a character list at `/` (the component split of a POSIX path). -/
def splitOnSlashAux : List Char → List Char → List String
  | [], acc => [String.mk acc.reverse]
  | c :: rest, acc =>
    if c = '/' then String.mk acc.reverse :: splitOnSlashAux rest []
    else splitOnSlashAux rest (c :: acc)

/-- `pathlib.Path(p).name`: final path component, with empty and `.`
components dropped. -/
def pathName (p : String) : String :=
  ((splitOnSlashAux p.toList []).filter
    (fun c => c ≠ "" && c ≠ ".")).getLast?.getD ""

/-- Python `str.startswith` (on whole strings). -/
def pyStartsWith (sv pfx : String) : Bool := pfx.toList.isPrefixOf sv.toList

/-! ## scanner.py -/

def DEFAULT_INCLUDE_C : List String := ["**/*.c", "**/*.h"]

def DEFAULT_INCLUDE_CPP : List String :=
  ["**/*.cc", "**/*.cpp", "**/*.cxx", "**/*.hpp", "**/*.hh"]

def DEFAULT_INCLUDE_PYTHON : List String := ["**/*.py"]

/-- scanner.py `default_includes`: raises `ValueError` (modelled as `.error`)
for an unsupported language filter. -/
def default_includes (language : String) : Except String (List String) :=
  if language = "python" then .ok DEFAULT_INCLUDE_PYTHON
  else if language = "c" then .ok DEFAULT_INCLUDE_C
  else if language = "cpp" then .ok DEFAULT_INCLUDE_CPP
  else if language = "all" then
    .ok (DEFAULT_INCLUDE_C ++ DEFAULT_INCLUDE_CPP ++ DEFAULT_INCLUDE_PYTHON)
  else .error ("Unsupported language filter: " ++ language)

/-- scanner.py `iter_lines_slice`. -/
def iter_lines_slice (lines : List String) (line_start line_end : Nat) : String :=
  let startIndex := line_start - 1
  let endIndex := min line_end lines.length
  String.intercalate "\n" ((lines.drop startIndex).take (endIndex - startIndex))

/-! ## The extracted-unit record (extract/base.py `ExtractedClaim` and the
provenance dict built by both extractors) -/

structure Provenance where
  path : String
  language : String
  unit : String
  symbol : String
  line_start : Nat
  line_end : Nat
  sha1_of_file : String
deriving DecidableEq, Repr

structure ExtractedClaim where
  text_raw : String
  source_type : String
  source_path : String
  authority : String
  provenance : Provenance
deriving DecidableEq, Repr

/-! ## c_cpp_extractor.py: lexical state tracker -/

def CONTROL_KEYWORDS : List String := ["if", "for", "while", "switch", "catch"]

structure ScanState where
  in_block_comment : Bool
  in_line_comment : Bool
  in_string : Bool
  in_char : Bool
  escape_next : Bool
deriving DecidableEq, Repr

def ScanState.init : ScanState :=
  ⟨false, false, false, false, false⟩

def ScanState.reset_line (s : ScanState) : ScanState :=
  { s with in_line_comment := false }

/-- Outcome of the shared per-character step of the scanning loops in
`_collect_signature`, `_find_opening_brace` and `_find_block_end`. -/
inductive ScanOut where
  | lineDone (s : ScanState)
  | consumed (s : ScanState)
  | visible (s : ScanState)
deriving DecidableEq, Repr

/-- The character-loop body shared verbatim by the three scanners: handles the
line-comment break, escape handling, comment open/close, quote toggling and
the in-string/in-char skip.  `visible` means control reached the
scanner-specific checks (`;`, braces). -/
def scanChar (s : ScanState) (c : Char) (pk : Option Char) : ScanOut :=
  if s.in_line_comment then .lineDone s
  else if s.escape_next then .consumed { s with escape_next := false }
  else if c = bsChar && (s.in_string || s.in_char) then
    .consumed { s with escape_next := true }
  else if s.in_block_comment then
    if c = '*' && pk = some '/' then .consumed { s with in_block_comment := false }
    else .consumed s
  else if c = '/' && pk = some '*' && !s.in_string && !s.in_char then
    .consumed { s with in_block_comment := true }
  else if c = '/' && pk = some '/' && !s.in_string && !s.in_char then
    .consumed { s with in_line_comment := true }
  else
    let s2 :=
      if c = quoteChar && !s.in_char then { s with in_string := !s.in_string }
      else if c = squoteChar && !s.in_string then { s with in_char := !s.in_char }
      else s
    if s2.in_string || s2.in_char then .consumed s2 else .visible s2

/-! ## c_cpp_extractor.py: `_collect_signature` -/

/-- Result of scanning one line inside `_collect_signature`: either an early
return of the whole function, or continue with the next line. -/
inductive SigOut where
  | ret (r : String × Nat × Option (Nat × Nat))
  | next (s : ScanState)
deriving DecidableEq, Repr

/-- The per-character loop of `_collect_signature` on one line.  `parts` holds
the accumulated signature lines (current line included), `lineIdx` the current
0-based line index (Python's `idx`, which equals `end_idx` at return time). -/
def sigLine (parts : List String) (lineIdx : Nat) :
    ScanState → List Char → Nat → SigOut
  | s, [], _ => .next s
  | s, c :: rest, col =>
    match scanChar s c rest.head? with
    | .lineDone sq => .next sq
    | .consumed sq => sigLine parts lineIdx sq rest (col + 1)
    | .visible sq =>
      if c = ';' then .ret ("", lineIdx, none)
      else if c = lbraceChar then
        .ret (String.intercalate "\n" parts, lineIdx, some (lineIdx, col))
      else sigLine parts lineIdx sq rest (col + 1)

/-- The line loop of `_collect_signature`: `rem` is the bounded window of
lines still to visit, `endIdx` the Python `end_idx` value before the current
iteration, `idx` the absolute index of the head of `rem`. -/
def collectSignatureAux :
    List String → Nat → Nat → ScanState → List String →
    String × Nat × Option (Nat × Nat)
  | [], endIdx, _, _, _ => ("", endIdx, none)
  | line :: rest, _, idx, s, parts =>
    let parts2 := parts ++ [line]
    match sigLine parts2 idx (s.reset_line) line.toList 0 with
    | .ret r => r
    | .next sq => collectSignatureAux rest idx (idx + 1) sq parts2

/-- c_cpp_extractor.py `_collect_signature` (with the default
`max_lines = 25`): the visited window is
`range(start_idx, min(len(lines), start_idx + 25))`. -/
def collect_signature (lines : List String) (start_idx : Nat) :
    String × Nat × Option (Nat × Nat) :=
  collectSignatureAux ((lines.drop start_idx).take 25) start_idx start_idx
    ScanState.init []

/-! ## c_cpp_extractor.py: `_find_opening_brace` -/

inductive ObOut where
  | found (loc : Nat × Nat)
  | abort
  | cont (s : ScanState)
deriving DecidableEq, Repr

/-- Per-character loop of `_find_opening_brace` on one line; columns below
`minCol` are skipped before any state logic (only the start line has a
non-zero `minCol`). -/
def obLine (lineIdx minCol : Nat) : ScanState → List Char → Nat → ObOut
  | s, [], _ => .cont s
  | s, c :: rest, col =>
    if col < minCol then obLine lineIdx minCol s rest (col + 1)
    else
      match scanChar s c rest.head? with
      | .lineDone sq => .cont sq
      | .consumed sq => obLine lineIdx minCol sq rest (col + 1)
      | .visible sq =>
        if c = lbraceChar then .found (lineIdx, col)
        else if c = ';' then .abort
        else obLine lineIdx minCol sq rest (col + 1)

def findOpeningBraceAux : Nat → Nat → List String → ScanState → Option (Nat × Nat)
  | _, _, [], _ => none
  | minCol, idx, line :: rest, s =>
    match obLine idx minCol (s.reset_line) line.toList 0 with
    | .found loc => some loc
    | .abort => none
    | .cont sq => findOpeningBraceAux 0 (idx + 1) rest sq

/-- c_cpp_extractor.py `_find_opening_brace`. -/
def find_opening_brace (lines : List String) (start_line start_col : Nat) :
    Option (Nat × Nat) :=
  findOpeningBraceAux start_col start_line (lines.drop start_line) ScanState.init

/-! ## c_cpp_extractor.py: `_find_block_end` -/

inductive BeOut where
  | ended (i : Nat)
  | cont (s : ScanState) (k : Int)
deriving DecidableEq, Repr

/-- Per-character loop of `_find_block_end` on one line; `k` is the running
`brace_count` (an `Int`, as in Python it may go negative). -/
def beLine (lineIdx minCol : Nat) : ScanState → Int → List Char → Nat → BeOut
  | s, k, [], _ => .cont s k
  | s, k, c :: rest, col =>
    if col < minCol then beLine lineIdx minCol s k rest (col + 1)
    else
      match scanChar s c rest.head? with
      | .lineDone sq => .cont sq k
      | .consumed sq => beLine lineIdx minCol sq k rest (col + 1)
      | .visible sq =>
        if c = lbraceChar then beLine lineIdx minCol sq (k + 1) rest (col + 1)
        else if c = rbraceChar then
          if k - 1 = 0 then .ended lineIdx
          else beLine lineIdx minCol sq (k - 1) rest (col + 1)
        else beLine lineIdx minCol sq k rest (col + 1)

def findBlockEndAux : Nat → Int → Nat → List String → ScanState → Option Nat
  | _, _, _, [], _ => none
  | minCol, k, idx, line :: rest, s =>
    match beLine idx minCol (s.reset_line) k line.toList 0 with
    | .ended i => some i
    | .cont sq kq => findBlockEndAux 0 kq (idx + 1) rest sq

/-- c_cpp_extractor.py `_find_block_end`. -/
def find_block_end (lines : List String) (start_line start_col : Nat) : Option Nat :=
  findBlockEndAux start_col 0 start_line (lines.drop start_line) ScanState.init

/-! ## c_cpp_extractor.py: `_extract_function_name` -/

/-- `re.findall` of the pattern `([A-Za-z_][A-Za-z0-9_:~]*)\s*\(` over a
character list: non-overlapping leftmost matches, returning the captured
identifiers.  The greedy runs are maximal runs since backtracking cannot help
this pattern. -/
def findallFnNameAux : Nat → List Char → List String
  | 0, _ => []
  | _ + 1, [] => []
  | fuel + 1, c :: rest =>
    if isIdentStartChar c then
      match (rest.dropWhile isFnIdentChar).dropWhile isReSpace with
      | c2 :: rest2 =>
        if c2 = lparenChar then
          String.mk (c :: rest.takeWhile isFnIdentChar) ::
            findallFnNameAux fuel rest2
        else findallFnNameAux fuel rest
      | [] => findallFnNameAux fuel rest
    else findallFnNameAux fuel rest

/-- Fuelled with the input length: every recursive call consumes at least one
character (`rest2` starts strictly after the matched `(`), so the fuel never
truncates the scan. -/
def findallFnName (cs : List Char) : List String := findallFnNameAux cs.length cs

/-- c_cpp_extractor.py `_extract_function_name`:
`" ".join(signature.split())`, then the last regex match. -/
def extract_function_name (signature : String) : Option String :=
  let stripped := String.intercalate " " (pySplitWs signature)
  (findallFnName stripped.toList).getLast?

/-! ## c_cpp_extractor.py: class/struct regex -/

/-- Attempt to match `(class|struct)\s+([A-Za-z_][A-Za-z0-9_]*)` at the head
of `cs` for one keyword; returns `(group0, identifier)`. -/
def matchKwAt (kw : String) (cs : List Char) : Option (String × String) :=
  if kw.toList.isPrefixOf cs then
    let rest := cs.drop kw.length
    let ws := rest.takeWhile isReSpace
    if ws.isEmpty then none
    else
      match rest.drop ws.length with
      | c :: rest2 =>
        if isIdentStartChar c then
          let identTail := rest2.takeWhile isClassIdentChar
          some (String.mk (cs.take (kw.length + ws.length + 1 + identTail.length)),
            String.mk (c :: identTail))
        else none
      | [] => none
  else none

/-- Match either alternative at the head of `cs` (the alternation tries
`class` first; the two keywords cannot both be prefixes). -/
def matchClassStructAt (cs : List Char) : Option (String × String) :=
  match matchKwAt "class" cs with
  | some r => some r
  | none => matchKwAt "struct" cs

/-- `re.search(r"\b(class|struct)\s+([A-Za-z_][A-Za-z0-9_]*)", line)`:
leftmost match; `atBoundary` records whether the previous character was a
non-word character (or start of line), implementing `\b` before a word
character. -/
def searchClassStruct : List Char → Bool → Option (String × String)
  | [], _ => none
  | c :: rest, atBoundary =>
    match (if atBoundary then matchClassStructAt (c :: rest) else none) with
    | some r => some r
    | none => searchClassStruct rest (!isWordChar c)

/-! ## c_cpp_extractor.py: `_find_class_blocks` -/

/-- The `enumerate(lines)` loop of `_find_class_blocks`; `idx` is the absolute
index of the head of `rem`, `lines` the full line list used for the forward
brace searches. -/
def findClassBlocksAux (lines : List String) : Nat → List String → List (String × Nat × Nat)
  | _, [] => []
  | idx, line :: rest =>
    let tail := findClassBlocksAux lines (idx + 1) rest
    if pyStartsWith (pyLstrip line) "#" then tail
    else
      match searchClassStruct line.toList true with
      | none => tail
      | some (g0, name) =>
        let startCol := (strFindSub line.toList g0.toList).getD 0
        match find_opening_brace lines idx startCol with
        | none => tail
        | some (sl, sc) =>
          match find_block_end lines sl sc with
          | none => tail
          | some endLine => (name, idx + 1, endLine + 1) :: tail

/-- c_cpp_extractor.py `_find_class_blocks`. -/
def find_class_blocks (lines : List String) : List (String × Nat × Nat) :=
  findClassBlocksAux lines 0 lines

/-! ## c_cpp_extractor.py: `_find_function_blocks` -/

/-- One iteration of the `while idx < len(lines)` loop of
`_find_function_blocks`: returns the unit emitted by this iteration (if any)
and the next value of `idx`. -/
def findFunctionBlocksStep (lines : List String) (idx : Nat) :
    Option (String × Nat × Nat) × Nat :=
  match lines.get? idx with
  | none => (none, idx + 1)
  | some line =>
    if pyStartsWith (pyLstrip line) "#define" then (none, idx + 1)
    else if !(line.toList.contains lparenChar) then (none, idx + 1)
    else
      let signature := (collect_signature lines idx).1
      let endIdx := (collect_signature lines idx).2.1
      let braceLoc := (collect_signature lines idx).2.2
      if signature = "" then (none, max (idx + 1) endIdx)
      else
        match extract_function_name signature with
        | none => (none, max (idx + 1) endIdx)
        | some name =>
          if CONTROL_KEYWORDS.contains name then (none, max (idx + 1) endIdx)
          else
            match braceLoc with
            | none => (none, max (idx + 1) endIdx)
            | some (braceLine, braceCol) =>
              match find_block_end lines braceLine braceCol with
              | none => (none, max (idx + 1) endIdx)
              | some endLine =>
                (some (name, idx + 1, endLine + 1), max (endLine + 1) (endIdx + 1))

/-- The loop of `_find_function_blocks`, fuel-indexed: every step strictly
increases `idx` (see the C9 theorem), so `lines.length` units of fuel always
suffice and the fuel never truncates the scan. -/
def findFunctionBlocksAux (lines : List String) : Nat → Nat → List (String × Nat × Nat)
  | 0, _ => []
  | fuel + 1, idx =>
    if idx < lines.length then
      match findFunctionBlocksStep lines idx with
      | (some u, idx2) => u :: findFunctionBlocksAux lines fuel idx2
      | (none, idx2) => findFunctionBlocksAux lines fuel idx2
    else []

/-- c_cpp_extractor.py `_find_function_blocks`. -/
def find_function_blocks (lines : List String) : List (String × Nat × Nat) :=
  findFunctionBlocksAux lines lines.length 0

/-! ## c_cpp_extractor.py: `extract_c_cpp_units` -/

/-- c_cpp_extractor.py `_build_claim`. -/
def build_claim (source_path authority : String) (lines : List String)
    (line_start line_end : Nat) (unit symbol sha1 language : String) :
    ExtractedClaim :=
  { text_raw := iter_lines_slice lines line_start line_end
    source_type := "code"
    source_path := source_path
    authority := authority
    provenance :=
      { path := source_path
        language := language
        unit := unit
        symbol := symbol
        line_start := line_start
        line_end := line_end
        sha1_of_file := sha1 } }

/-- c_cpp_extractor.py `extract_c_cpp_units` (the `path` parameter is used
only for logging and is omitted). -/
def extract_c_cpp_units (source_path text unit authority sha1 language : String)
    (is_header : Bool) : List ExtractedClaim :=
  let lines := pySplitlines text
  let total_lines := lines.length
  if total_lines = 0 then []
  else if unit = "file" then
    [build_claim source_path authority lines 1 total_lines "file"
      (pathName source_path) sha1 language]
  else if unit = "class" then
    (find_class_blocks lines).map fun nse =>
      build_claim source_path authority lines nse.2.1 nse.2.2 "class" nse.1
        sha1 language
  else if unit = "function" then
    let function_blocks := find_function_blocks lines
    if function_blocks.isEmpty && is_header then
      [build_claim source_path authority lines 1 total_lines "file"
        (pathName source_path) sha1 language]
    else
      function_blocks.map fun nse =>
        build_claim source_path authority lines nse.2.1 nse.2.2 "function" nse.1
          sha1 language
  else []

/-! ## python_extractor.py

The indent-family extractor delegates parsing to the external `ast` library.
Modelled from the spec: "Parse the full file text into a syntax tree", with
node metadata `lineno` / `end_lineno`; the parse result is passed as an
explicit `Option PyNode` argument (`none` models a `SyntaxError`).  The tree
shape keeps exactly the features `_iter_class_nodes` / `_iter_function_nodes`
/ `_node_line_span` consult: constructor kind, name, `lineno`, optional
`end_lineno`, and child statements. -/

inductive PyNode where
  | module (body : List PyNode)
  | classDef (name : String) (lineno : Nat) (end_lineno : Option Nat) (body : List PyNode)
  | funcDef (name : String) (lineno : Nat) (end_lineno : Option Nat) (body : List PyNode)
  | asyncFuncDef (name : String) (lineno : Nat) (end_lineno : Option Nat) (body : List PyNode)
  | otherStmt (lineno : Nat) (end_lineno : Option Nat) (body : List PyNode)

/-- `ast.iter_child_nodes` restricted to statement children (the only children
that can be definitions). -/
def pyChildren : PyNode → List PyNode
  | .module b => b
  | .classDef _ _ _ b => b
  | .funcDef _ _ _ b => b
  | .asyncFuncDef _ _ _ b => b
  | .otherStmt _ _ b => b

/-- `getattr(node, "lineno", 1) or 1` (the module has no `lineno`). -/
def pyLineno : PyNode → Nat
  | .module _ => 1
  | .classDef _ ln _ _ => if ln = 0 then 1 else ln
  | .funcDef _ ln _ _ => if ln = 0 then 1 else ln
  | .asyncFuncDef _ ln _ _ => if ln = 0 then 1 else ln
  | .otherStmt ln _ _ => if ln = 0 then 1 else ln

/-- `getattr(node, "end_lineno", None)`. -/
def pyEndLineno : PyNode → Option Nat
  | .module _ => none
  | .classDef _ _ e _ => e
  | .funcDef _ _ e _ => e
  | .asyncFuncDef _ _ e _ => e
  | .otherStmt _ e _ => e

/-- `isinstance(node, (ast.FunctionDef, ast.AsyncFunctionDef))`. -/
def isFuncLike : PyNode → Bool
  | .funcDef _ _ _ _ => true
  | .asyncFuncDef _ _ _ _ => true
  | _ => false

/-- `isinstance(node, ast.ClassDef)`. -/
def isClassNode : PyNode → Bool
  | .classDef _ _ _ _ => true
  | _ => false

/-- `isinstance(parent, (ast.Module, ast.ClassDef))` on the parent attribute
(`none` models a node without the attribute, i.e. the root module). -/
def parentOkB : Option PyNode → Bool
  | some (.module _) => true
  | some (.classDef _ _ _ _) => true
  | _ => false

/-- Node name (definitions only). -/
def pyName : PyNode → String
  | .classDef nm _ _ _ => nm
  | .funcDef nm _ _ _ => nm
  | .asyncFuncDef nm _ _ _ => nm
  | _ => ""

mutual

/-- Number of nodes in a tree (fuel bound for the breadth-first walk). -/
def pySize : PyNode → Nat
  | .module b => 1 + pySizeList b
  | .classDef _ _ _ b => 1 + pySizeList b
  | .funcDef _ _ _ b => 1 + pySizeList b
  | .asyncFuncDef _ _ _ b => 1 + pySizeList b
  | .otherStmt _ _ b => 1 + pySizeList b

def pySizeList : List PyNode → Nat
  | [] => 0
  | x :: xs => pySize x + pySizeList xs

end

/-- `ast.walk` (breadth-first via a deque), annotated with the parent
attribute that `_iter_function_nodes`'s first pass assigns: each queue entry
is `(node, parent)`.  Fuel-indexed; one unit of fuel is consumed per visited
node, so fuel `pySize root` is exactly enough (each step removes a node and
enqueues its children). -/
def pyWalkAux : Nat → List (PyNode × Option PyNode) → List (PyNode × Option PyNode)
  | 0, _ => []
  | _ + 1, [] => []
  | fuel + 1, (n, p) :: rest =>
    (n, p) :: pyWalkAux fuel (rest ++ (pyChildren n).map fun c => (c, some n))

def pyWalk (root : PyNode) : List (PyNode × Option PyNode) :=
  pyWalkAux (pySize root) [(root, none)]

/-- python_extractor.py `_iter_class_nodes`: direct module body only. -/
def iter_class_nodes (tree : PyNode) : List PyNode :=
  (pyChildren tree).filter isClassNode

/-- python_extractor.py `_iter_function_nodes`: walk the whole tree and keep
function definitions whose parent attribute is a `Module` or a `ClassDef`. -/
def iter_function_nodes (tree : PyNode) : List (PyNode × Option PyNode) :=
  (pyWalk tree).filter fun pr => isFuncLike pr.1 && parentOkB pr.2

/-- python_extractor.py `_indent_of`. -/
def indent_of (line : String) : Nat :=
  line.length - (String.mk (line.toList.dropWhile (· = ' '))).length

/-- The `for idx in range(line_start, len(lines))` loop of
`_fallback_end_lineno`; `rem = lines.drop idx`, `fullLen = len(lines)`. -/
def fallbackScan (indent fullLen : Nat) : Nat → List String → Nat
  | _, [] => fullLen
  | idx, l :: rest =>
    if pyIsBlank l then fallbackScan indent fullLen (idx + 1) rest
    else if indent_of l ≤ indent then idx
    else fallbackScan indent fullLen (idx + 1) rest

/-- python_extractor.py `_fallback_end_lineno`. -/
def fallback_end_lineno (line_start : Nat) (lines : List String) : Nat :=
  if line_start > lines.length then lines.length
  else
    let indent := indent_of ((lines.get? (line_start - 1)).getD "")
    fallbackScan indent lines.length line_start (lines.drop line_start)

/-- python_extractor.py `_node_line_span`. -/
def node_line_span (node : PyNode) (lines : List String) : Nat × Nat :=
  let line_start := pyLineno node
  let end_lineno :=
    match pyEndLineno node with
    | some e => e
    | none => fallback_end_lineno line_start lines
  (line_start, max line_start (min end_lineno lines.length))

/-- python_extractor.py `_build_provenance` wrapped in the `ExtractedClaim`
construction common to the three branches of `extract_python_units`. -/
def build_python_claim (source_path : String) (lines : List String)
    (authority : String) (unit symbol : String) (line_start line_end : Nat)
    (sha1 : String) : ExtractedClaim :=
  { text_raw := iter_lines_slice lines line_start line_end
    source_type := "code"
    source_path := source_path
    authority := authority
    provenance :=
      { path := source_path
        language := "python"
        unit := unit
        symbol := symbol
        line_start := line_start
        line_end := line_end
        sha1_of_file := sha1 } }

/-- python_extractor.py `extract_python_units`; `parse` stands for the
outcome of `ast.parse(text)` (`none` = `SyntaxError`, which the code turns
into zero units). -/
def extract_python_units (source_path text unit authority sha1 : String)
    (parse : Option PyNode) : List ExtractedClaim :=
  let lines := pySplitlines text
  let total_lines := lines.length
  if unit = "file" then
    [build_python_claim source_path lines authority "file" (pathName source_path)
      1 total_lines sha1]
  else
    match parse with
    | none => []
    | some tree =>
      if unit = "class" then
        (iter_class_nodes tree).map fun node =>
          let se := node_line_span node lines
          build_python_claim source_path lines authority "class" (pyName node)
            se.1 se.2 sha1
      else if unit = "function" then
        (iter_function_nodes tree).map fun pr =>
          let se := node_line_span pr.1 lines
          let symbol :=
            match pr.2 with
            | some (.classDef pnm _ _ _) => pnm ++ "." ++ pyName pr.1
            | _ => pyName pr.1
          build_python_claim source_path lines authority "function" symbol
            se.1 se.2 sha1
      else []

/-! ## Well-formedness of parse trees

`ast.parse` only produces nodes whose `lineno` lies within the physical lines
of the parsed text (and `str.splitlines` never yields fewer lines than the
parser's line accounting), and identifiers are never empty.  Theorems about
the indent-family extractor assume this of the externally produced tree. -/

mutual

def pyWfB (total : Nat) : PyNode → Bool
  | .module b => pyWfListB total b
  | .classDef nm ln _ b =>
    !nm.isEmpty && decide (1 ≤ ln) && decide (ln ≤ total) && pyWfListB total b
  | .funcDef nm ln _ b =>
    !nm.isEmpty && decide (1 ≤ ln) && decide (ln ≤ total) && pyWfListB total b
  | .asyncFuncDef nm ln _ b =>
    !nm.isEmpty && decide (1 ≤ ln) && decide (ln ≤ total) && pyWfListB total b
  | .otherStmt ln _ b =>
    decide (1 ≤ ln) && decide (ln ≤ total) && pyWfListB total b

def pyWfListB (total : Nat) : List PyNode → Bool
  | [] => true
  | x :: xs => pyWfB total x && pyWfListB total xs

end

/-! ## Concrete fixtures used in counterexamples and witnesses -/

/-- A method reachable only through a class nested inside a function:
`def outer():` / `    class Inner:` / `        def method(self):` /
`            pass`. -/
def nestedClassText : String :=
  "def outer():\n    class Inner:\n        def method(self):\n            pass"

/-- The parse tree of `nestedClassText` with CPython `lineno`/`end_lineno`
metadata. -/
def nestedClassTree : PyNode :=
  .module [.funcDef "outer" 1 (some 4)
    [.classDef "Inner" 2 (some 4)
      [.funcDef "method" 3 (some 4)
        [.otherStmt 4 (some 4) []]]]]

/-! ## Statement-side definitions -/

/-- The spec's provenance invariant for one emitted unit:
`1 ≤ line_start ≤ line_end ≤ total_lines`. -/
def spanInvariant (total : Nat) (u : ExtractedClaim) : Prop :=
  1 ≤ u.provenance.line_start ∧
    u.provenance.line_start ≤ u.provenance.line_end ∧
    u.provenance.line_end ≤ total

/-- `(n, p)` is reachable from the queue entry `q`: `n` occurs in the subtree
rooted at `q.1` and `p` is its tree parent (`q.2` for the root itself). -/
inductive Reaches : PyNode × Option PyNode → PyNode × Option PyNode → Prop where
  | refl (q : PyNode × Option PyNode) : Reaches q q
  | step {q : PyNode × Option PyNode} {n : PyNode} {p : Option PyNode} {c : PyNode} :
      Reaches q (n, p) → c ∈ pyChildren n → Reaches q (c, some n)

/-- Total node count of a breadth-first queue (fuel accounting for
`pyWalkAux`). -/
def queueSize : List (PyNode × Option PyNode) → Nat
  | [] => 0
  | q :: rest => pySize q.1 + queueSize rest

/-! ## Helper lemmas: per-line scanners return the line index they were
given -/

theorem obLine_found_fst (lineIdx minCol : Nat) (cs : List Char) :
    ∀ (s : ScanState) (col : Nat) (lc : Nat × Nat),
      obLine lineIdx minCol s cs col = .found lc → lc.1 = lineIdx := by
  induction cs with
  | nil => intro s col lc h; simp [obLine] at h
  | cons c rest ih =>
    intro s col lc h
    rw [obLine] at h
    split at h
    · exact ih _ _ _ h
    · split at h
      · simp at h
      · exact ih _ _ _ h
      · split at h
        · injection h with h2; rw [← h2]
        · split at h
          · simp at h
          · exact ih _ _ _ h

theorem beLine_ended_eq (lineIdx minCol : Nat) (cs : List Char) :
    ∀ (s : ScanState) (k : Int) (col i : Nat),
      beLine lineIdx minCol s k cs col = .ended i → i = lineIdx := by
  induction cs with
  | nil => intro s k col i h; simp [beLine] at h
  | cons c rest ih =>
    intro s k col i h
    rw [beLine] at h
    split at h
    · exact ih _ _ _ _ h
    · split at h
      · simp at h
      · exact ih _ _ _ _ h
      · split at h
        · exact ih _ _ _ _ h
        · split at h
          · split at h
            · injection h with h2; rw [h2]
            · exact ih _ _ _ _ h
          · exact ih _ _ _ _ h

theorem sigLine_ret_shape (parts : List String) (lineIdx : Nat) (cs : List Char) :
    ∀ (s : ScanState) (col : Nat) (r : String × Nat × Option (Nat × Nat)),
      sigLine parts lineIdx s cs col = .ret r →
        r.2.1 = lineIdx ∧ ∀ lc, r.2.2 = some lc → lc.1 = lineIdx := by
  induction cs with
  | nil => intro s col r h; simp [sigLine] at h
  | cons c rest ih =>
    intro s col r h
    rw [sigLine] at h
    split at h
    · simp at h
    · exact ih _ _ _ h
    · split at h
      · injection h with h2
        subst h2
        refine ⟨rfl, ?_⟩
        intro lc hlc
        simp at hlc
      · split at h
        · injection h with h2
          subst h2
          refine ⟨rfl, ?_⟩
          intro lc hlc
          obtain ⟨a, b⟩ := lc
          simp at hlc
          omega
        · exact ih _ _ _ h

/-! ## Helper lemmas: bounds on the forward searches -/

theorem findOpeningBraceAux_some_bounds (rem : List String) :
    ∀ (minCol idx : Nat) (s : ScanState) (lc : Nat × Nat),
      findOpeningBraceAux minCol idx rem s = some lc →
        idx ≤ lc.1 ∧ lc.1 < idx + rem.length := by
  induction rem with
  | nil => intro minCol idx s lc h; simp [findOpeningBraceAux] at h
  | cons line rest ih =>
    intro minCol idx s lc h
    rw [findOpeningBraceAux] at h
    split at h
    · rename_i loc heq
      injection h with h2
      subst h2
      have hfst := obLine_found_fst idx minCol line.toList _ _ _ heq
      simp only [List.length_cons]
      omega
    · simp at h
    · rename_i sq heq
      have hb := ih 0 (idx + 1) sq lc h
      simp only [List.length_cons]
      omega

theorem find_opening_brace_some_bounds (lines : List String)
    (start_line start_col : Nat) (lc : Nat × Nat)
    (h : find_opening_brace lines start_line start_col = some lc) :
    start_line ≤ lc.1 ∧ lc.1 < lines.length := by
  have hb := findOpeningBraceAux_some_bounds (lines.drop start_line)
    start_col start_line ScanState.init lc h
  have hlen : (lines.drop start_line).length = lines.length - start_line :=
    List.length_drop _ _
  omega

theorem findBlockEndAux_some_bounds (rem : List String) :
    ∀ (minCol : Nat) (k : Int) (idx : Nat) (s : ScanState) (e : Nat),
      findBlockEndAux minCol k idx rem s = some e →
        idx ≤ e ∧ e < idx + rem.length := by
  induction rem with
  | nil => intro minCol k idx s e h; simp [findBlockEndAux] at h
  | cons line rest ih =>
    intro minCol k idx s e h
    rw [findBlockEndAux] at h
    split at h
    · rename_i i heq
      injection h with h2
      subst h2
      have hfst := beLine_ended_eq idx minCol line.toList _ _ _ _ heq
      simp only [List.length_cons]
      omega
    · rename_i sq kq heq
      have hb := ih 0 kq (idx + 1) sq e h
      simp only [List.length_cons]
      omega

theorem find_block_end_some_bounds (lines : List String)
    (start_line start_col : Nat) (e : Nat)
    (h : find_block_end lines start_line start_col = some e) :
    start_line ≤ e ∧ e < lines.length := by
  have hb := findBlockEndAux_some_bounds (lines.drop start_line)
    start_col 0 start_line ScanState.init e h
  have hlen : (lines.drop start_line).length = lines.length - start_line :=
    List.length_drop _ _
  omega

theorem collectSignatureAux_endIdx_ge (rem : List String) :
    ∀ (endIdx idx : Nat) (s : ScanState) (parts : List String) (b : Nat),
      b ≤ endIdx → b ≤ idx →
        b ≤ (collectSignatureAux rem endIdx idx s parts).2.1 := by
  induction rem with
  | nil => intro endIdx idx s parts b h1 h2; simpa [collectSignatureAux] using h1
  | cons line rest ih =>
    intro endIdx idx s parts b h1 h2
    rw [collectSignatureAux]
    split
    · rename_i r heq
      have hsh := sigLine_ret_shape _ idx line.toList _ _ _ heq
      omega
    · rename_i sq heq
      exact ih idx (idx + 1) sq _ b h2 (by omega)

theorem collectSignatureAux_brace_bounds (rem : List String) :
    ∀ (endIdx idx : Nat) (s : ScanState) (parts : List String) (l c : Nat),
      (collectSignatureAux rem endIdx idx s parts).2.2 = some (l, c) →
        idx ≤ l ∧ l < idx + rem.length := by
  induction rem with
  | nil => intro endIdx idx s parts l c h; simp [collectSignatureAux] at h
  | cons line rest ih =>
    intro endIdx idx s parts l c h
    rw [collectSignatureAux] at h
    split at h
    · rename_i r heq
      have hsh := sigLine_ret_shape _ idx line.toList _ _ _ heq
      have hl := hsh.2 (l, c) h
      simp only [List.length_cons]
      omega
    · rename_i sq heq
      have hb := ih idx (idx + 1) sq _ l c h
      simp only [List.length_cons]
      omega

theorem collect_signature_endIdx_ge (lines : List String) (i : Nat) :
    i ≤ (collect_signature lines i).2.1 :=
  collectSignatureAux_endIdx_ge _ i i ScanState.init [] i le_rfl le_rfl

theorem collect_signature_brace_bounds (lines : List String) (i l c : Nat)
    (h : (collect_signature lines i).2.2 = some (l, c)) :
    i ≤ l ∧ l < lines.length := by
  have hb := collectSignatureAux_brace_bounds ((lines.drop i).take 25)
    i i ScanState.init [] l c h
  have hlen : ((lines.drop i).take 25).length ≤ lines.length - i := by
    simp [List.length_take, List.length_drop]
  omega

/-! ## Helper lemmas: spans of located blocks -/

theorem findClassBlocksAux_spans (lines : List String) (rem : List String) :
    ∀ (idx : Nat) (nse : String × Nat × Nat),
      nse ∈ findClassBlocksAux lines idx rem →
        1 ≤ nse.2.1 ∧ nse.2.1 ≤ nse.2.2 ∧ nse.2.2 ≤ lines.length := by
  induction rem with
  | nil => intro idx nse h; simp [findClassBlocksAux] at h
  | cons line rest ih =>
    intro idx nse h
    simp only [findClassBlocksAux] at h
    split at h
    · exact ih (idx + 1) nse h
    · split at h
      · exact ih (idx + 1) nse h
      · rename_i g0 name heq
        split at h
        · exact ih (idx + 1) nse h
        · rename_i sl sc heqOb
          split at h
          · exact ih (idx + 1) nse h
          · rename_i endLine heqBe
            rcases List.mem_cons.mp h with hh | hh
            · subst hh
              have hob : idx ≤ sl ∧ sl < lines.length :=
                find_opening_brace_some_bounds lines idx _ _ heqOb
              have hbe : sl ≤ endLine ∧ endLine < lines.length :=
                find_block_end_some_bounds lines sl sc endLine heqBe
              refine ⟨?_, ?_, ?_⟩
              · show 1 ≤ idx + 1
                omega
              · show idx + 1 ≤ endLine + 1
                omega
              · show endLine + 1 ≤ lines.length
                omega
            · exact ih (idx + 1) nse hh

theorem find_class_blocks_spans (lines : List String) (nse : String × Nat × Nat)
    (h : nse ∈ find_class_blocks lines) :
    1 ≤ nse.2.1 ∧ nse.2.1 ≤ nse.2.2 ∧ nse.2.2 ≤ lines.length :=
  findClassBlocksAux_spans lines lines 0 nse h

theorem findFunctionBlocksStep_emit_spans (lines : List String) (idx : Nat)
    (u : String × Nat × Nat) (idx2 : Nat)
    (h : findFunctionBlocksStep lines idx = (some u, idx2)) :
    1 ≤ u.2.1 ∧ u.2.1 ≤ u.2.2 ∧ u.2.2 ≤ lines.length := by
  simp only [findFunctionBlocksStep] at h
  split at h
  · simp at h
  · split at h
    · simp at h
    · split at h
      · simp at h
      · split at h
        · simp at h
        · split at h
          · simp at h
          · split at h
            · simp at h
            · split at h
              · simp at h
              · rename_i braceLine braceCol heqBrace
                split at h
                · simp at h
                · rename_i endLine heqBe
                  injection h with h1 h2
                  injection h1 with h1
                  subst h1
                  have hcb : idx ≤ braceLine ∧ braceLine < lines.length :=
                    collect_signature_brace_bounds lines idx braceLine braceCol heqBrace
                  have hbe : braceLine ≤ endLine ∧ endLine < lines.length :=
                    find_block_end_some_bounds lines braceLine braceCol endLine heqBe
                  refine ⟨?_, ?_, ?_⟩
                  · show 1 ≤ idx + 1
                    omega
                  · show idx + 1 ≤ endLine + 1
                    omega
                  · show endLine + 1 ≤ lines.length
                    omega

theorem findFunctionBlocksStep_progress (lines : List String) (idx : Nat) :
    idx < (findFunctionBlocksStep lines idx).2 := by
  have hend := collect_signature_endIdx_ge lines idx
  have hm1 : idx + 1 ≤ max (idx + 1) ((collect_signature lines idx).2.1) :=
    le_max_left _ _
  simp only [findFunctionBlocksStep]
  split
  · show idx < idx + 1
    omega
  · split
    · show idx < idx + 1
      omega
    · split
      · show idx < idx + 1
        omega
      · split
        · show idx < max (idx + 1) ((collect_signature lines idx).2.1)
          omega
        · split
          · show idx < max (idx + 1) ((collect_signature lines idx).2.1)
            omega
          · split
            · show idx < max (idx + 1) ((collect_signature lines idx).2.1)
              omega
            · split
              · show idx < max (idx + 1) ((collect_signature lines idx).2.1)
                omega
              · split
                · show idx < max (idx + 1) ((collect_signature lines idx).2.1)
                  omega
                · rename_i endLine heqBe
                  show idx <
                    max (endLine + 1) ((collect_signature lines idx).2.1 + 1)
                  have hm2 : (collect_signature lines idx).2.1 + 1 ≤
                      max (endLine + 1) ((collect_signature lines idx).2.1 + 1) :=
                    le_max_right _ _
                  omega

theorem findFunctionBlocksAux_fuel (lines : List String) :
    ∀ (fuel1 fuel2 idx : Nat),
      lines.length ≤ idx + fuel1 → lines.length ≤ idx + fuel2 →
      findFunctionBlocksAux lines fuel1 idx = findFunctionBlocksAux lines fuel2 idx := by
  intro fuel1
  induction fuel1 with
  | zero =>
    intro fuel2 idx h1 h2
    cases fuel2 with
    | zero => rfl
    | succ f2 =>
      have hge : ¬ idx < lines.length := by omega
      simp [findFunctionBlocksAux, hge]
  | succ f1 ih =>
    intro fuel2 idx h1 h2
    cases fuel2 with
    | zero =>
      have hge : ¬ idx < lines.length := by omega
      simp [findFunctionBlocksAux, hge]
    | succ f2 =>
      by_cases hlt : idx < lines.length
      · have hpro := findFunctionBlocksStep_progress lines idx
        rcases hu : findFunctionBlocksStep lines idx with ⟨u, idx2⟩
        rw [hu] at hpro
        have hidx2 : idx < idx2 := hpro
        cases u with
        | none =>
          simp only [findFunctionBlocksAux, hu, if_pos hlt]
          exact ih f2 idx2 (by omega) (by omega)
        | some uu =>
          simp only [findFunctionBlocksAux, hu, if_pos hlt]
          rw [ih f2 idx2 (by omega) (by omega)]
      · simp [findFunctionBlocksAux, hlt]

theorem findFunctionBlocksAux_spans (lines : List String) :
    ∀ (fuel idx : Nat) (u : String × Nat × Nat),
      u ∈ findFunctionBlocksAux lines fuel idx →
        1 ≤ u.2.1 ∧ u.2.1 ≤ u.2.2 ∧ u.2.2 ≤ lines.length := by
  intro fuel
  induction fuel with
  | zero => intro idx u h; simp [findFunctionBlocksAux] at h
  | succ f ih =>
    intro idx u h
    rw [findFunctionBlocksAux] at h
    split at h
    · split at h
      · rename_i v idx2 heq
        rcases List.mem_cons.mp h with hh | hh
        · subst hh
          exact findFunctionBlocksStep_emit_spans lines _ _ _ heq
        · exact ih idx2 u hh
      · rename_i idx2 heq
        exact ih idx2 u h
    · simp at h

theorem find_function_blocks_spans (lines : List String) (u : String × Nat × Nat)
    (h : u ∈ find_function_blocks lines) :
    1 ≤ u.2.1 ∧ u.2.1 ≤ u.2.2 ∧ u.2.2 ≤ lines.length :=
  findFunctionBlocksAux_spans lines lines.length 0 u h

theorem collect_signature_window (lines : List String) (i : Nat) :
    collect_signature lines i = collect_signature (lines.take (i + 25)) i := by
  rw [collect_signature, collect_signature]
  congr 1
  rw [List.drop_take]
  simp [List.take_take]

/-! ## Helper lemmas: well-formed parse trees and the breadth-first walk -/

theorem pyWfListB_mem (total : Nat) :
    ∀ (l : List PyNode), pyWfListB total l = true →
      ∀ c ∈ l, pyWfB total c = true := by
  intro l
  induction l with
  | nil => intro _ c hc; simp at hc
  | cons x xs ih =>
    intro h c hc
    rw [pyWfListB, Bool.and_eq_true] at h
    rcases List.mem_cons.mp hc with hh | hh
    · subst hh; exact h.1
    · exact ih h.2 c hh

theorem pyWfB_children (total : Nat) (n : PyNode) (h : pyWfB total n = true) :
    pyWfListB total (pyChildren n) = true := by
  cases n with
  | module b => exact h
  | classDef nm ln e b =>
    rw [pyWfB] at h
    simp only [Bool.and_eq_true] at h
    exact h.2
  | funcDef nm ln e b =>
    rw [pyWfB] at h
    simp only [Bool.and_eq_true] at h
    exact h.2
  | asyncFuncDef nm ln e b =>
    rw [pyWfB] at h
    simp only [Bool.and_eq_true] at h
    exact h.2
  | otherStmt ln e b =>
    rw [pyWfB] at h
    simp only [Bool.and_eq_true] at h
    exact h.2

theorem pyWalkAux_wf (total : Nat) :
    ∀ (fuel : Nat) (queue : List (PyNode × Option PyNode)),
      (∀ pr ∈ queue, pyWfB total pr.1 = true) →
      ∀ pr ∈ pyWalkAux fuel queue, pyWfB total pr.1 = true := by
  intro fuel
  induction fuel with
  | zero => intro queue _ pr hpr; simp [pyWalkAux] at hpr
  | succ f ih =>
    intro queue hq pr hpr
    cases queue with
    | nil => simp [pyWalkAux] at hpr
    | cons q rest =>
      obtain ⟨n, p⟩ := q
      rw [pyWalkAux] at hpr
      rcases List.mem_cons.mp hpr with hh | hh
      · subst hh
        exact hq _ (List.mem_cons_self _ _)
      · refine ih _ ?_ pr hh
        intro pr2 hpr2
        rcases List.mem_append.mp hpr2 with h2 | h2
        · exact hq pr2 (List.mem_cons_of_mem _ h2)
        · obtain ⟨c, hc, hceq⟩ := List.mem_map.mp h2
          have hwfn : pyWfB total n = true := hq (n, p) (List.mem_cons_self _ _)
          have hwfc := pyWfListB_mem total _ (pyWfB_children total n hwfn) c hc
          rw [← hceq]
          exact hwfc

theorem pyWfB_lineno_bounds (total : Nat) (n : PyNode) (h : pyWfB total n = true)
    (hk : isFuncLike n = true ∨ isClassNode n = true) :
    1 ≤ pyLineno n ∧ pyLineno n ≤ total := by
  cases n with
  | module b => simp [isFuncLike, isClassNode] at hk
  | otherStmt ln e b => simp [isFuncLike, isClassNode] at hk
  | classDef nm ln e b =>
    rw [pyWfB] at h
    simp only [Bool.and_eq_true, decide_eq_true_eq] at h
    rw [pyLineno, if_neg (by omega)]
    omega
  | funcDef nm ln e b =>
    rw [pyWfB] at h
    simp only [Bool.and_eq_true, decide_eq_true_eq] at h
    rw [pyLineno, if_neg (by omega)]
    omega
  | asyncFuncDef nm ln e b =>
    rw [pyWfB] at h
    simp only [Bool.and_eq_true, decide_eq_true_eq] at h
    rw [pyLineno, if_neg (by omega)]
    omega

theorem pyWfB_name_ne (total : Nat) (n : PyNode) (h : pyWfB total n = true)
    (hk : isFuncLike n = true ∨ isClassNode n = true) :
    pyName n ≠ "" := by
  cases n with
  | module b => simp [isFuncLike, isClassNode] at hk
  | otherStmt ln e b => simp [isFuncLike, isClassNode] at hk
  | classDef nm ln e b =>
    rw [pyWfB] at h
    simp only [Bool.and_eq_true, Bool.not_eq_true'] at h
    rw [pyName]
    intro hc
    rw [hc] at h
    simp [String.isEmpty] at h
  | funcDef nm ln e b =>
    rw [pyWfB] at h
    simp only [Bool.and_eq_true, Bool.not_eq_true'] at h
    rw [pyName]
    intro hc
    rw [hc] at h
    simp [String.isEmpty] at h
  | asyncFuncDef nm ln e b =>
    rw [pyWfB] at h
    simp only [Bool.and_eq_true, Bool.not_eq_true'] at h
    rw [pyName]
    intro hc
    rw [hc] at h
    simp [String.isEmpty] at h

theorem node_line_span_ok (n : PyNode) (lines : List String)
    (h1 : 1 ≤ pyLineno n) (h2 : pyLineno n ≤ lines.length) :
    1 ≤ (node_line_span n lines).1 ∧
      (node_line_span n lines).1 ≤ (node_line_span n lines).2 ∧
      (node_line_span n lines).2 ≤ lines.length := by
  rw [node_line_span]
  refine ⟨h1, le_max_left _ _, max_le h2 (min_le_right _ _)⟩

/-! ## Helper lemmas: reachability and completeness of the walk -/

theorem Reaches.trans {q1 q2 q3 : PyNode × Option PyNode}
    (h1 : Reaches q1 q2) (h2 : Reaches q2 q3) : Reaches q1 q3 := by
  induction h2 with
  | refl => exact h1
  | step hr hc ih => exact Reaches.step ih hc

theorem Reaches_unfold {n : PyNode} {p : Option PyNode}
    {pr : PyNode × Option PyNode} (h : Reaches (n, p) pr) :
    pr = (n, p) ∨ ∃ c ∈ pyChildren n, Reaches (c, some n) pr := by
  induction h with
  | refl => exact Or.inl rfl
  | step hr hc ih =>
    rename_i m pm c
    rcases ih with hh | ⟨c2, hc2, hr2⟩
    · injection hh with hm hp
      subst hm
      exact Or.inr ⟨c, hc, Reaches.refl _⟩
    · exact Or.inr ⟨c2, hc2, Reaches.trans hr2 (Reaches.step (Reaches.refl _) hc)⟩

theorem pySize_pos (n : PyNode) : 1 ≤ pySize n := by
  cases n <;> rw [pySize] <;> omega

theorem pySize_eq_children (n : PyNode) :
    pySize n = 1 + pySizeList (pyChildren n) := by
  cases n <;> rfl

theorem queueSize_append (a b : List (PyNode × Option PyNode)) :
    queueSize (a ++ b) = queueSize a + queueSize b := by
  induction a with
  | nil => simp [queueSize]
  | cons q rest ih => simp [queueSize, ih]; omega

theorem queueSize_children_map (n : PyNode) (cs : List PyNode) :
    queueSize (cs.map fun c => (c, some n)) = pySizeList cs := by
  induction cs with
  | nil => rfl
  | cons c rest ih => simp [queueSize, pySizeList, ih]

theorem pyWalkAux_sound :
    ∀ (fuel : Nat) (queue : List (PyNode × Option PyNode))
      (pr : PyNode × Option PyNode), pr ∈ pyWalkAux fuel queue →
      ∃ q ∈ queue, Reaches q pr := by
  intro fuel
  induction fuel with
  | zero => intro queue pr hpr; simp [pyWalkAux] at hpr
  | succ f ih =>
    intro queue pr hpr
    cases queue with
    | nil => simp [pyWalkAux] at hpr
    | cons q rest =>
      obtain ⟨n, p⟩ := q
      rw [pyWalkAux] at hpr
      rcases List.mem_cons.mp hpr with hh | hh
      · exact ⟨(n, p), List.mem_cons_self _ _, hh ▸ Reaches.refl _⟩
      · obtain ⟨q2, hq2, hr2⟩ := ih _ pr hh
        rcases List.mem_append.mp hq2 with h2 | h2
        · exact ⟨q2, List.mem_cons_of_mem _ h2, hr2⟩
        · obtain ⟨c, hc, hceq⟩ := List.mem_map.mp h2
          refine ⟨(n, p), List.mem_cons_self _ _, ?_⟩
          exact Reaches.trans (hceq ▸ Reaches.step (Reaches.refl _) hc) hr2

theorem pyWalkAux_complete :
    ∀ (fuel : Nat) (queue : List (PyNode × Option PyNode)),
      queueSize queue ≤ fuel →
      ∀ q ∈ queue, ∀ (pr : PyNode × Option PyNode),
        Reaches q pr → pr ∈ pyWalkAux fuel queue := by
  intro fuel
  induction fuel with
  | zero =>
    intro queue hsz q hq pr hr
    cases queue with
    | nil => simp at hq
    | cons q2 rest =>
      have h1 := pySize_pos q2.1
      rw [queueSize] at hsz
      omega
  | succ f ih =>
    intro queue hsz q hq pr hr
    cases queue with
    | nil => simp at hq
    | cons q0 rest =>
      obtain ⟨n, p⟩ := q0
      rw [pyWalkAux]
      have hszq : queueSize ((n, p) :: rest) =
          pySize n + queueSize rest := rfl
      have hsz2 : queueSize (rest ++ (pyChildren n).map fun c => (c, some n)) ≤ f := by
        rw [queueSize_append, queueSize_children_map]
        have := pySize_eq_children n
        omega
      rcases List.mem_cons.mp hq with hh | hh
      · subst hh
        rcases Reaches_unfold hr with hpr | ⟨c, hc, hrc⟩
        · subst hpr
          exact List.mem_cons_self _ _
        · refine List.mem_cons_of_mem _ ?_
          refine ih _ hsz2 (c, some n) ?_ pr hrc
          exact List.mem_append.mpr (Or.inr (List.mem_map.mpr ⟨c, hc, rfl⟩))
      · refine List.mem_cons_of_mem _ ?_
        exact ih _ hsz2 q (List.mem_append.mpr (Or.inl hh)) pr hr

theorem pyWalk_mem_iff (root : PyNode) (pr : PyNode × Option PyNode) :
    pr ∈ pyWalk root ↔ Reaches (root, none) pr := by
  constructor
  · intro h
    obtain ⟨q, hq, hr⟩ := pyWalkAux_sound _ _ pr h
    rcases List.mem_singleton.mp hq with hh
    exact hh ▸ hr
  · intro h
    refine pyWalkAux_complete (pySize root) [(root, none)] ?_ (root, none)
      (List.mem_singleton.mpr rfl) pr h
    simp [queueSize]

/-! ## Helper lemmas: extracted symbols are never empty -/

theorem stringMk_cons_ne (c : Char) (l : List Char) : String.mk (c :: l) ≠ "" := by
  intro h
  have hd := congrArg String.data h
  simp at hd

theorem matchKwAt_name_ne (kw : String) (cs : List Char) (g0 nm : String)
    (h : matchKwAt kw cs = some (g0, nm)) : nm ≠ "" := by
  simp only [matchKwAt] at h
  split at h
  · split at h
    · simp at h
    · split at h
      · split at h
        · injection h with h2
          injection h2 with hg hn
          exact hn ▸ stringMk_cons_ne _ _
        · simp at h
      · simp at h
  · simp at h

theorem searchClassStruct_name_ne :
    ∀ (cs : List Char) (b : Bool) (g0 nm : String),
      searchClassStruct cs b = some (g0, nm) → nm ≠ "" := by
  intro cs
  induction cs with
  | nil => intro b g0 nm h; simp [searchClassStruct] at h
  | cons c rest ih =>
    intro b g0 nm h
    rw [searchClassStruct] at h
    split at h
    · rename_i r heq
      injection h with h2
      subst h2
      split at heq
      · rw [matchClassStructAt] at heq
        split at heq
        · rename_i v hv
          injection heq with heq2
          exact matchKwAt_name_ne _ _ _ _ (heq2 ▸ hv)
        · exact matchKwAt_name_ne _ _ _ _ heq
      · simp at heq
    · exact ih _ g0 nm h

theorem findallFnNameAux_mem_ne :
    ∀ (fuel : Nat) (cs : List Char), ∀ m ∈ findallFnNameAux fuel cs, m ≠ "" := by
  intro fuel
  induction fuel with
  | zero => intro cs m hm; simp [findallFnNameAux] at hm
  | succ n ih =>
    intro cs m hm
    cases cs with
    | nil => simp [findallFnNameAux] at hm
    | cons c rest =>
      rw [findallFnNameAux] at hm
      split at hm
      · split at hm
        · rename_i c2 rest2 heq
          split at hm
          · rcases List.mem_cons.mp hm with hh | hh
            · exact hh ▸ stringMk_cons_ne _ _
            · exact ih rest2 m hh
          · exact ih rest m hm
        · exact ih rest m hm
      · exact ih rest m hm

theorem extract_function_name_ne (signature nm : String)
    (h : extract_function_name signature = some nm) : nm ≠ "" := by
  rw [extract_function_name] at h
  have hmem := List.mem_of_getLast?_eq_some h
  exact findallFnNameAux_mem_ne _ _ nm hmem

theorem findClassBlocksAux_name_ne (lines : List String) (rem : List String) :
    ∀ (start : Nat) (nse : String × Nat × Nat),
      nse ∈ findClassBlocksAux lines start rem → nse.1 ≠ "" := by
  induction rem with
  | nil => intro start nse h; simp [findClassBlocksAux] at h
  | cons line rest ih =>
    intro start nse h
    simp only [findClassBlocksAux] at h
    split at h
    · exact ih (start + 1) nse h
    · split at h
      · exact ih (start + 1) nse h
      · rename_i g0 name heq
        split at h
        · exact ih (start + 1) nse h
        · split at h
          · exact ih (start + 1) nse h
          · rcases List.mem_cons.mp h with hh | hh
            · subst hh
              exact searchClassStruct_name_ne _ _ _ _ heq
            · exact ih (start + 1) nse hh

theorem find_class_blocks_name_ne (lines : List String)
    (nse : String × Nat × Nat) (h : nse ∈ find_class_blocks lines) :
    nse.1 ≠ "" :=
  findClassBlocksAux_name_ne lines lines 0 nse h

set_option maxHeartbeats 1000000 in
theorem findFunctionBlocksStep_emit_name_ne (lines : List String) (idx : Nat)
    (u : String × Nat × Nat) (idx2 : Nat)
    (h : findFunctionBlocksStep lines idx = (some u, idx2)) : u.1 ≠ "" := by
  simp only [findFunctionBlocksStep] at h
  split at h
  · simp at h
  · split at h
    · simp at h
    · split at h
      · simp at h
      · split at h
        · simp at h
        · split at h
          · simp at h
          · rename_i name hname
            split at h
            · simp at h
            · split at h
              · simp at h
              · split at h
                · simp at h
                · rename_i endLine heqBe
                  simp only [Prod.mk.injEq, Option.some.injEq] at h
                  obtain ⟨h1, h2⟩ := h
                  subst h1
                  exact extract_function_name_ne _ _ hname


theorem findFunctionBlocksAux_name_ne (lines : List String) :
    ∀ (fuel idx : Nat) (u : String × Nat × Nat),
      u ∈ findFunctionBlocksAux lines fuel idx → u.1 ≠ "" := by
  intro fuel
  induction fuel with
  | zero => intro idx u h; simp [findFunctionBlocksAux] at h
  | succ f ih =>
    intro idx u h
    rw [findFunctionBlocksAux] at h
    split at h
    · split at h
      · rename_i v idx2 heq
        rcases List.mem_cons.mp h with hh | hh
        · subst hh
          exact findFunctionBlocksStep_emit_name_ne lines _ _ _ heq
        · exact ih idx2 u hh
      · rename_i idx2 heq
        exact ih idx2 u h
    · simp at h

theorem find_function_blocks_name_ne (lines : List String)
    (u : String × Nat × Nat) (h : u ∈ find_function_blocks lines) : u.1 ≠ "" :=
  findFunctionBlocksAux_name_ne lines lines.length 0 u h

/-- A method symbol `Class.name` is never empty (it contains the dot). -/
theorem string_dot_append_ne (a b : String) : a ++ "." ++ b ≠ "" := by
  intro h
  have hl := congrArg String.length h
  simp [String.length_append] at hl
  exact absurd hl.1.2 (by decide)

theorem findClassBlocksAux_line_match (lines : List String) :
    ∀ (rem : List String) (start : Nat), rem = lines.drop start →
      ∀ nse ∈ findClassBlocksAux lines start rem,
        ∃ line, lines.get? (nse.2.1 - 1) = some line ∧
          pyStartsWith (pyLstrip line) "#" = false ∧
          ∃ g0, searchClassStruct line.toList true = some (g0, nse.1) := by
  intro rem
  induction rem with
  | nil => intro start _ nse h; simp [findClassBlocksAux] at h
  | cons line rest ih =>
    intro start hdrop nse h
    have hget : lines.get? start = some line := by
      rw [List.get?_eq_getElem?]
      have h0 : (lines.drop start)[0]? = some line := by rw [← hdrop]; simp
      rw [List.getElem?_drop] at h0
      simpa using h0
    have hrest : rest = lines.drop (start + 1) := by
      rw [← List.tail_drop, ← hdrop]
      rfl
    simp only [findClassBlocksAux] at h
    split at h
    · exact ih (start + 1) hrest nse h
    · rename_i hpre
      split at h
      · exact ih (start + 1) hrest nse h
      · rename_i g0 name heq
        split at h
        · exact ih (start + 1) hrest nse h
        · split at h
          · exact ih (start + 1) hrest nse h
          · rcases List.mem_cons.mp h with hh | hh
            · subst hh
              refine ⟨line, ?_, ?_, g0, heq⟩
              · simpa using hget
              · simpa using hpre
            · exact ih (start + 1) hrest nse hh

/-! ## Claim theorems -/

/-- C2 (counterexample): for the empty text, the brace-family extractor with
`unit_kind = file` yields zero units, not exactly one as the claim states. -/
theorem C2_counterexample :
    ¬ ((extract_c_cpp_units "a.c" "" "file" "human" "d" "c" false).length = 1) := by
  decide

/-- C2 (amended): requesting `unit_kind = file` yields exactly one unit with
`line_start = 1` and `line_end = total_lines` from the indent-family extractor
for every text (including the empty text, where the span degenerates to
`[1, 0]`), and from the brace-family extractor for every text with at least
one line; on the empty text the brace-family extractor yields zero units. -/
theorem C2_file_unit (source_path text authority sha1 language : String)
    (is_header : Bool) (parse : Option PyNode) :
    ((extract_python_units source_path text "file" authority sha1 parse).map
        (fun u => (u.provenance.unit, u.provenance.line_start, u.provenance.line_end)) =
      [("file", 1, (pySplitlines text).length)]) ∧
    (1 ≤ (pySplitlines text).length →
      (extract_c_cpp_units source_path text "file" authority sha1 language is_header).map
          (fun u => (u.provenance.unit, u.provenance.line_start, u.provenance.line_end)) =
        [("file", 1, (pySplitlines text).length)]) ∧
    ((pySplitlines text).length = 0 →
      extract_c_cpp_units source_path text "file" authority sha1 language is_header = []) := by
  refine ⟨?_, ?_, ?_⟩
  · simp [extract_python_units, build_python_claim]
  · intro htotal
    simp only [extract_c_cpp_units]
    rw [if_neg (by omega)]
    simp [build_claim]
  · intro htotal
    simp only [extract_c_cpp_units]
    rw [if_pos htotal]

/-- C2 (witness): the amended theorem applied to a one-line file. -/
theorem C2_witness :
    ((extract_python_units "a.py" "x = 1" "file" "human" "d" none).map
        (fun u => (u.provenance.unit, u.provenance.line_start, u.provenance.line_end)) =
      [("file", 1, 1)]) ∧
    ((extract_c_cpp_units "a.c" "x = 1" "file" "human" "d" "c" false).map
        (fun u => (u.provenance.unit, u.provenance.line_start, u.provenance.line_end)) =
      [("file", 1, 1)]) := by
  have h := C2_file_unit "a.py" "x = 1" "human" "d" "c" false none
  have h2 := C2_file_unit "a.c" "x = 1" "human" "d" "c" false none
  exact ⟨h.1, h2.2.1 (by decide)⟩

/-- C3 (counterexample): on `nestedClassText`, whose only class is nested
inside a function, `unit_kind = function` enumerates `Inner.method` in
addition to `outer`, although `Inner` is not a module-level class. -/
theorem C3_counterexample :
    (extract_python_units "a.py" nestedClassText "function" "human" "d"
        (some nestedClassTree)).map (fun u => u.provenance.symbol) =
      ["outer", "Inner.method"] := by
  decide

/-- C3 (amended): `unit_kind = function` enumerates exactly the function and
asynchronous-function definitions whose immediate parent in the tree is the
module or any class definition, regardless of how deeply that class is
nested; functions whose immediate parent is another function (or any other
statement) are excluded. -/
theorem C3_function_enumeration (tree : PyNode) (pr : PyNode × Option PyNode) :
    pr ∈ iter_function_nodes tree ↔
      Reaches (tree, none) pr ∧ isFuncLike pr.1 = true ∧ parentOkB pr.2 = true := by
  rw [iter_function_nodes, List.mem_filter, pyWalk_mem_iff, Bool.and_eq_true]

/-- C4 (counterexample): a file whose parse fails still yields one unit when
`unit_kind = file` is requested, because the file branch never parses. -/
theorem C4_counterexample :
    (extract_python_units "bad.py" "def f(:" "file" "human" "d" none).length = 1 ∧
      ¬ ((extract_python_units "bad.py" "def f(:" "file" "human" "d" none).length = 0) := by
  decide

/-- C4 (amended): for every requested unit kind other than `file`, a failed
parse (modelled as `parse = none`) yields zero units and no exception;
`unit_kind = file` returns its single unit without consulting the parser. -/
theorem C4_parse_failure_zero_units (source_path text unit authority sha1 : String)
    (hunit : unit ≠ "file") :
    extract_python_units source_path text unit authority sha1 none = [] := by
  simp only [extract_python_units]
  rw [if_neg hunit]

/-- C4 (witness): the amended theorem applied to `unit_kind = function` on an
invalid-syntax file. -/
theorem C4_witness :
    extract_python_units "bad.py" "def f(:" "function" "human" "d" none = [] :=
  C4_parse_failure_zero_units "bad.py" "def f(:" "function" "human" "d" (by decide)

/-- C7 (counterexample): an unsupported unit kind is not rejected: both
extractors return normally with an empty result instead of raising. -/
theorem C7_counterexample :
    extract_c_cpp_units "a.c" "int x;" "banana" "human" "d" "c" false = [] ∧
      extract_python_units "a.py" "x = 1" "banana" "human" "d"
        (some (.module [.otherStmt 1 (some 1) []])) = [] := by
  decide

/-- C7 (amended): an unsupported language filter is rejected with an error by
the default-include computation (used when no explicit include patterns are
supplied), but an unsupported unit kind is not a fatal error: extraction
silently returns zero units for it. -/
theorem C7_config_validation :
    (∀ language : String,
        language ≠ "python" → language ≠ "c" → language ≠ "cpp" →
        language ≠ "all" →
        default_includes language =
          .error ("Unsupported language filter: " ++ language)) ∧
    (∀ source_path text unit authority sha1 language : String,
        ∀ is_header : Bool,
        unit ≠ "file" → unit ≠ "class" → unit ≠ "function" →
        extract_c_cpp_units source_path text unit authority sha1 language
          is_header = []) ∧
    (∀ source_path text unit authority sha1 : String, ∀ parse : Option PyNode,
        unit ≠ "file" → unit ≠ "class" → unit ≠ "function" →
        extract_python_units source_path text unit authority sha1 parse = []) := by
  refine ⟨?_, ?_, ?_⟩
  · intro language h1 h2 h3 h4
    simp [default_includes, h1, h2, h3, h4]
  · intro sp text unit a s lang ih h1 h2 h3
    simp [extract_c_cpp_units, h1, h2, h3]
  · intro sp text unit a s parse h1 h2 h3
    simp only [extract_python_units]
    rw [if_neg h1]
    cases parse with
    | none => rfl
    | some tree => simp [h2, h3]

/-- C7 (witness): the amended theorem applied to the language filter `java`
and the unit kind `banana`. -/
theorem C7_witness :
    default_includes "java" = .error ("Unsupported language filter: " ++ "java") ∧
      extract_c_cpp_units "w.c" "int y;" "banana" "human" "d" "c" false = [] := by
  have h := C7_config_validation
  exact ⟨h.1 "java" (by decide) (by decide) (by decide) (by decide),
    h.2.1 "w.c" "int y;" "banana" "human" "d" "c" false (by decide) (by decide)
      (by decide)⟩

/-- C8 (confirmed): extraction is deterministic: both extractors are pure
functions of the file content (and, for the indent-family extractor, of the
parse result), so identical text yields an identical ordered unit list. -/
theorem C8_determinism (source_path unit authority sha1 language : String)
    (is_header : Bool) (parse : Option PyNode) (text1 text2 : String)
    (htext : text1 = text2) :
    extract_c_cpp_units source_path text1 unit authority sha1 language is_header =
        extract_c_cpp_units source_path text2 unit authority sha1 language is_header ∧
      extract_python_units source_path text1 unit authority sha1 parse =
        extract_python_units source_path text2 unit authority sha1 parse := by
  subst htext
  exact ⟨rfl, rfl⟩

/-- C8 (witness): determinism applied to a concrete file content. -/
theorem C8_witness :
    extract_c_cpp_units "a.c" "int x;" "function" "human" "d" "c" false =
        extract_c_cpp_units "a.c" "int x;" "function" "human" "d" "c" false ∧
      extract_python_units "a.c" "int x;" "function" "human" "d" none =
        extract_python_units "a.c" "int x;" "function" "human" "d" none :=
  C8_determinism "a.c" "function" "human" "d" "c" false none "int x;" "int x;" rfl

/-- C9 (confirmed): signature collection depends only on the 25-line window
starting at the candidate line; every iteration of the function-block scan
strictly increases the outer line index; hence the fuelled loop is
insensitive to any sufficient fuel, i.e. the scan terminates on every finite
input. -/
theorem C9_bounded_scan (lines : List String) :
    (∀ i, collect_signature lines i = collect_signature (lines.take (i + 25)) i) ∧
    (∀ idx, idx < (findFunctionBlocksStep lines idx).2) ∧
    (∀ fuel1 fuel2 idx, lines.length ≤ idx + fuel1 → lines.length ≤ idx + fuel2 →
      findFunctionBlocksAux lines fuel1 idx = findFunctionBlocksAux lines fuel2 idx) :=
  ⟨fun i => collect_signature_window lines i,
   fun idx => findFunctionBlocksStep_progress lines idx,
   fun f1 f2 idx h1 h2 => findFunctionBlocksAux_fuel lines f1 f2 idx h1 h2⟩

/-- C9 (witness): the bounded-scan properties applied to a concrete file. -/
theorem C9_witness :
    collect_signature (pySplitlines "int f()\n\x7b\n\x7d") 0 =
        collect_signature ((pySplitlines "int f()\n\x7b\n\x7d").take 25) 0 ∧
      0 < (findFunctionBlocksStep (pySplitlines "int f()\n\x7b\n\x7d") 0).2 ∧
      findFunctionBlocksAux (pySplitlines "int f()\n\x7b\n\x7d") 3 0 =
        findFunctionBlocksAux (pySplitlines "int f()\n\x7b\n\x7d") 5 0 := by
  have h := C9_bounded_scan (pySplitlines "int f()\n\x7b\n\x7d")
  exact ⟨h.1 0, h.2.1 0, h.2.2 3 5 0 (by decide) (by decide)⟩

/-- C1 (counterexample): on the empty text the indent-family extractor's file
unit has span `[1, 0]` while the text has 0 lines, violating
`1 <= line_start <= line_end <= total_lines`. -/
theorem C1_counterexample :
    ¬ (∀ u ∈ extract_python_units "a.py" "" "file" "human" "d"
          (some (.module [])),
        1 ≤ u.provenance.line_start ∧
          u.provenance.line_start ≤ u.provenance.line_end ∧
          u.provenance.line_end ≤ (pySplitlines "").length) := by
  decide

/-- C1 (amended): for every input text with at least one line, every unit
emitted by either extractor (any unit kind) satisfies
`1 <= line_start <= line_end <= total_lines`, given a well-formed parse tree
for the indent family; the sole violation is the indent-family file unit of
the empty text, whose span is `[1, 0]`. -/
theorem C1_span_invariant (source_path text unit authority sha1 language : String)
    (is_header : Bool) (parse : Option PyNode)
    (htotal : 1 ≤ (pySplitlines text).length)
    (hwf : ∀ t, parse = some t → pyWfB (pySplitlines text).length t = true) :
    (∀ u ∈ extract_python_units source_path text unit authority sha1 parse,
        spanInvariant (pySplitlines text).length u) ∧
    (∀ u ∈ extract_c_cpp_units source_path text unit authority sha1 language
        is_header, spanInvariant (pySplitlines text).length u) := by
  constructor
  · intro u hu
    simp only [extract_python_units] at hu
    split at hu
    · have hm := List.mem_singleton.mp hu
      subst hm
      exact ⟨le_refl 1, htotal, le_refl _⟩
    · split at hu
      · simp at hu
      · rename_i tree
        have hwft := hwf tree rfl
        split at hu
        · obtain ⟨node, hnode, heq⟩ := List.mem_map.mp hu
          rw [iter_class_nodes] at hnode
          have hmem := List.mem_filter.mp hnode
          have hwfn := pyWfListB_mem _ _ (pyWfB_children _ _ hwft) node hmem.1
          have hb := pyWfB_lineno_bounds _ _ hwfn (Or.inr hmem.2)
          have hok := node_line_span_ok node (pySplitlines text) hb.1 hb.2
          rw [← heq]
          exact ⟨hok.1, hok.2.1, hok.2.2⟩
        · split at hu
          · obtain ⟨pr, hpr, heq⟩ := List.mem_map.mp hu
            rw [iter_function_nodes] at hpr
            have hf := List.mem_filter.mp hpr
            have hpred := hf.2
            rw [Bool.and_eq_true] at hpred
            have hwfn := pyWalkAux_wf (pySplitlines text).length (pySize tree)
              [(tree, none)]
              (by intro pr2 hpr2; rw [List.mem_singleton.mp hpr2]; exact hwft)
              pr hf.1
            have hb := pyWfB_lineno_bounds _ _ hwfn (Or.inl hpred.1)
            have hok := node_line_span_ok pr.1 (pySplitlines text) hb.1 hb.2
            rw [← heq]
            exact ⟨hok.1, hok.2.1, hok.2.2⟩
          · simp at hu
  · intro u hu
    simp only [extract_c_cpp_units] at hu
    split at hu
    · simp at hu
    · split at hu
      · have hm := List.mem_singleton.mp hu
        subst hm
        exact ⟨le_refl 1, htotal, le_refl _⟩
      · split at hu
        · obtain ⟨nse, hnse, heq⟩ := List.mem_map.mp hu
          have hs := find_class_blocks_spans _ nse hnse
          rw [← heq]
          exact ⟨hs.1, hs.2.1, hs.2.2⟩
        · split at hu
          · split at hu
            · have hm := List.mem_singleton.mp hu
              subst hm
              exact ⟨le_refl 1, htotal, le_refl _⟩
            · obtain ⟨nse, hnse, heq⟩ := List.mem_map.mp hu
              have hs := find_function_blocks_spans _ nse hnse
              rw [← heq]
              exact ⟨hs.1, hs.2.1, hs.2.2⟩
          · simp at hu

/-- C1 (witness): the span invariant applied to a concrete 3-line C file. -/
theorem C1_witness :
    spanInvariant (pySplitlines "int f()\n\x7b\n\x7d").length
      (build_claim "a.c" "human" (pySplitlines "int f()\n\x7b\n\x7d") 1 3
        "function" "f" "d" "c") := by
  have h := C1_span_invariant "a.c" "int f()\n\x7b\n\x7d" "function" "human" "d"
    "c" false none (by decide) (fun t ht => Option.noConfusion ht)
  exact h.2 _ (by decide)

/-- C5 (counterexample): a `class` keyword occurring only inside a line
comment still yields a class unit when a brace block follows, because the
match is made on the raw line. -/
theorem C5_counterexample :
    (extract_c_cpp_units "a.cpp" "// class Foo\n\x7b\n\x7d" "class" "human" "d"
        "cpp" false).map
      (fun u => (u.provenance.symbol, u.provenance.line_start,
        u.provenance.line_end)) = [("Foo", 1, 3)] := by
  decide

/-- C5 (amended): class/struct candidates are recorded from a raw-line regex
match alone: only lines whose stripped form starts with `#` are skipped and
string/comment lexical state is not consulted for the match itself (it is
tracked only from the match position onward when locating the block).  Every
emitted class unit comes from a non-preprocessor line whose raw text matches
the keyword-identifier regex with the unit's symbol. -/
theorem C5_raw_line_candidates (lines : List String) (nse : String × Nat × Nat)
    (h : nse ∈ find_class_blocks lines) :
    ∃ line, lines.get? (nse.2.1 - 1) = some line ∧
      pyStartsWith (pyLstrip line) "#" = false ∧
      ∃ g0, searchClassStruct line.toList true = some (g0, nse.1) :=
  findClassBlocksAux_line_match lines lines 0 (List.drop_zero lines).symm nse h

/-- C5 (witness): the raw-line characterization applied to a concrete class
unit. -/
theorem C5_witness :
    ∃ line, (pySplitlines "class A \x7b\n\x7d").get? 0 = some line ∧
      pyStartsWith (pyLstrip line) "#" = false ∧
      ∃ g0, searchClassStruct line.toList true = some (g0, "A") :=
  C5_raw_line_candidates (pySplitlines "class A \x7b\n\x7d") ("A", 1, 2)
    (by decide)

/-- C6 (counterexample): an empty header file with `unit_kind = function`
yields zero units, not the single whole-file fallback unit the claim
promises whenever a header has zero function bodies. -/
theorem C6_counterexample :
    extract_c_cpp_units "empty.h" "" "function" "human" "d" "c" true = [] ∧
      ¬ ((extract_c_cpp_units "empty.h" "" "function" "human" "d" "c"
          true).length = 1) := by
  decide

/-- C6 (amended): for every header text with at least one line on which the
function scan finds zero blocks, `unit_kind = function` emits exactly one
whole-file `file` unit; the empty header text yields zero units. -/
theorem C6_header_fallback (source_path text authority sha1 language : String)
    (htotal : 1 ≤ (pySplitlines text).length)
    (hblocks : find_function_blocks (pySplitlines text) = []) :
    extract_c_cpp_units source_path text "function" authority sha1 language true =
      [build_claim source_path authority (pySplitlines text) 1
        (pySplitlines text).length "file" (pathName source_path) sha1 language] := by
  have hne : ¬ (pySplitlines text).length = 0 := by omega
  simp [extract_c_cpp_units, hne, hblocks]

/-- C6 (witness): the fallback applied to the single-line header
`#define MAX_VALUE 10`, giving one `file` unit with span `[1, 1]`. -/
theorem C6_witness :
    extract_c_cpp_units "max.h" "#define MAX_VALUE 10" "function" "human" "d"
        "c" true =
      [build_claim "max.h" "human" (pySplitlines "#define MAX_VALUE 10") 1 1
        "file" "max.h" "d" "c"] := by
  have h := C6_header_fallback "max.h" "#define MAX_VALUE 10" "human" "d" "c"
    (by decide) (by decide)
  exact h

/-- C10 (confirmed): every emitted unit carries a non-empty symbol, including
`unit_kind = file` units, whose symbol is the base name of the source path
(assumed to have a non-empty final component), given a well-formed parse
tree for the indent family. -/
theorem C10_nonempty_symbols (source_path text unit authority sha1 language : String)
    (is_header : Bool) (parse : Option PyNode)
    (hpath : pathName source_path ≠ "")
    (hwf : ∀ t, parse = some t → pyWfB (pySplitlines text).length t = true) :
    (∀ u ∈ extract_python_units source_path text unit authority sha1 parse,
        u.provenance.symbol ≠ "") ∧
    (∀ u ∈ extract_c_cpp_units source_path text unit authority sha1 language
        is_header, u.provenance.symbol ≠ "") := by
  constructor
  · intro u hu
    simp only [extract_python_units] at hu
    split at hu
    · have hm := List.mem_singleton.mp hu
      subst hm
      simpa [build_python_claim] using hpath
    · split at hu
      · simp at hu
      · rename_i tree
        have hwft := hwf tree rfl
        split at hu
        · obtain ⟨node, hnode, heq⟩ := List.mem_map.mp hu
          rw [iter_class_nodes] at hnode
          have hmem := List.mem_filter.mp hnode
          have hwfn := pyWfListB_mem _ _ (pyWfB_children _ _ hwft) node hmem.1
          have hne := pyWfB_name_ne _ _ hwfn (Or.inr hmem.2)
          rw [← heq]
          simpa [build_python_claim] using hne
        · split at hu
          · obtain ⟨pr, hpr, heq⟩ := List.mem_map.mp hu
            rw [iter_function_nodes] at hpr
            have hf := List.mem_filter.mp hpr
            have hpred := hf.2
            rw [Bool.and_eq_true] at hpred
            have hwfn := pyWalkAux_wf (pySplitlines text).length (pySize tree)
              [(tree, none)]
              (by intro pr2 hpr2; rw [List.mem_singleton.mp hpr2]; exact hwft)
              pr hf.1
            have hne := pyWfB_name_ne _ _ hwfn (Or.inl hpred.1)
            rw [← heq]
            obtain ⟨n, p⟩ := pr
            cases p with
            | none => simpa [build_python_claim] using hne
            | some parent =>
              cases parent with
              | classDef pnm l e b =>
                simpa [build_python_claim] using
                  string_dot_append_ne pnm (pyName n)
              | module b => simpa [build_python_claim] using hne
              | funcDef nm l e b => simpa [build_python_claim] using hne
              | asyncFuncDef nm l e b => simpa [build_python_claim] using hne
              | otherStmt l e b => simpa [build_python_claim] using hne
          · simp at hu
  · intro u hu
    simp only [extract_c_cpp_units] at hu
    split at hu
    · simp at hu
    · split at hu
      · have hm := List.mem_singleton.mp hu
        subst hm
        simpa [build_claim] using hpath
      · split at hu
        · obtain ⟨nse, hnse, heq⟩ := List.mem_map.mp hu
          rw [← heq]
          simpa [build_claim] using find_class_blocks_name_ne _ nse hnse
        · split at hu
          · split at hu
            · have hm := List.mem_singleton.mp hu
              subst hm
              simpa [build_claim] using hpath
            · obtain ⟨nse, hnse, heq⟩ := List.mem_map.mp hu
              rw [← heq]
              simpa [build_claim] using find_function_blocks_name_ne _ nse hnse
          · simp at hu

/-- C10 (witness): the non-empty-symbol invariant applied to a concrete
extracted function unit. -/
theorem C10_witness :
    (build_claim "a.c" "human" (pySplitlines "int f()\n\x7b\n\x7d") 1 3
        "function" "f" "d" "c").provenance.symbol ≠ "" := by
  have h := C10_nonempty_symbols "a.c" "int f()\n\x7b\n\x7d" "function" "human"
    "d" "c" false none (by decide) (fun t ht => Option.noConfusion ht)
  exact h.2 _ (by decide)

end SpecDiff
